import Mathlib

/-!
Shallow embedding of the `sl` static type checker (src/type_checker.rs).

The checker operates on an already-parsed program: algebraic data
declarations and function definitions whose bodies are sequences of stack
words.  We mirror the Rust code's data model and control flow exactly:

* `Ty` embeds the Rust `Type` enum (`Basic`, `Function`, `Quotation`).
* The `ctx` HashMap is embedded as an association list where insertion
  prepends and lookup takes the first match (equivalent observable
  behaviour to a hash map: lookup after insert sees the new binding).
* The `types` HashSet is embedded as a list of names with membership test.
* The locals `Vec` is a list with index 0 at the bottom; `push` appends at
  the end and `truncate n` is `List.take n`, exactly as in the Rust code.
* The simulated value stack is likewise a list whose last element is the
  top of the stack.
* Rust panics (integer-underflow/slice panics, `unreachable!()`, `unwrap`)
  are embedded explicitly: fallible helpers return `Option` (with `none`
  for a panic) and checker steps return `Outcome` with a `panicked`
  constructor.
-/

namespace SL

inductive Ty where
  | Basic : String → Ty
  | Function : List Ty → List Ty → Ty
  | Quotation : List Ty → List Ty → Ty

inductive TypeExpr where
  | Word : String → TypeExpr
  | Quotation : List TypeExpr → List TypeExpr → TypeExpr

inductive Pattern where
  | All : String → Pattern
  | Constructor : String → List Pattern → Pattern

inductive Expr where
  | Word : String → Expr
  | Quotation : List TypeExpr → List Expr → Expr
  | Unquote : Expr

structure Constructor where
  name : String
  argument_types : List TypeExpr

structure Branch where
  patterns : List Pattern
  body : List Expr

inductive TopLevel where
  | Data : String → List Constructor → TopLevel
  | Def : String → List TypeExpr → List TypeExpr → List Branch → TopLevel

inductive TypeCheckError where
  | TypeAlreadyDefined
  | SymbolAlreadyDefined
  | TypeMismatch
  | UnboundSymbol
deriving DecidableEq, Repr

/-- Outcome of a checker step: success, a returned `TypeCheckError`, or a
Rust panic (slice-index underflow, `unreachable!()`, `unwrap` on `None`). -/
inductive Outcome (α : Type) where
  | ok : α → Outcome α
  | error : TypeCheckError → Outcome α
  | panicked : Outcome α
deriving DecidableEq

/- Structural equality on `Ty`, mirroring the derived `PartialEq` on the
Rust `Type` enum (mutual with its list version because the constructors
hold lists of types). -/
mutual

def tyDecEq : (a b : Ty) → Decidable (a = b)
  | .Basic x, .Basic y =>
      match String.decEq x y with
      | isTrue h => isTrue (by rw [h])
      | isFalse h => isFalse (by simp [h])
  | .Basic _, .Function _ _ => isFalse (by simp)
  | .Basic _, .Quotation _ _ => isFalse (by simp)
  | .Function _ _, .Basic _ => isFalse (by simp)
  | .Function i1 o1, .Function i2 o2 =>
      match tyListDecEq i1 i2, tyListDecEq o1 o2 with
      | isTrue h1, isTrue h2 => isTrue (by rw [h1, h2])
      | isFalse h1, _ => isFalse (by simp [h1])
      | _, isFalse h2 => isFalse (by simp [h2])
  | .Function _ _, .Quotation _ _ => isFalse (by simp)
  | .Quotation _ _, .Basic _ => isFalse (by simp)
  | .Quotation _ _, .Function _ _ => isFalse (by simp)
  | .Quotation i1 o1, .Quotation i2 o2 =>
      match tyListDecEq i1 i2, tyListDecEq o1 o2 with
      | isTrue h1, isTrue h2 => isTrue (by rw [h1, h2])
      | isFalse h1, _ => isFalse (by simp [h1])
      | _, isFalse h2 => isFalse (by simp [h2])

def tyListDecEq : (a b : List Ty) → Decidable (a = b)
  | [], [] => isTrue rfl
  | [], _ :: _ => isFalse (by simp)
  | _ :: _, [] => isFalse (by simp)
  | x :: xs, y :: ys =>
      match tyDecEq x y, tyListDecEq xs ys with
      | isTrue h1, isTrue h2 => isTrue (by rw [h1, h2])
      | isFalse h1, _ => isFalse (by simp [h1])
      | _, isFalse h2 => isFalse (by simp [h2])

end

instance : DecidableEq Ty := tyDecEq

abbrev Ctx := List (String × Ty)
abbrev Locals := List (String × Ty)

/-- Embeds `HashMap::get`: first binding wins (insertion prepends). -/
def ctxGet (ctx : Ctx) (k : String) : Option Ty :=
  match ctx with
  | [] => none
  | (k', v) :: rest => if k' = k then some v else ctxGet rest k

mutual

/-- Embeds `TypeChecker::type_expr`: lower a `TypeExpr` to a `Ty`. -/
def type_expr : TypeExpr → Ty
  | .Word word => .Basic word
  | .Quotation inputs outputs =>
      .Quotation (type_expr_list inputs) (type_expr_list outputs)

/-- Lowers a list of `TypeExpr`s (the `iter().map(...).collect()` calls). -/
def type_expr_list : List TypeExpr → List Ty
  | [] => []
  | t :: ts => type_expr t :: type_expr_list ts

end

/-- Embeds `TypeChecker::resolve_word`: the most recently pushed matching
local wins, then the global table, else `UnboundSymbol`. -/
def resolve_word (locals : Locals) (ctx : Ctx) (word : String) :
    Outcome Ty :=
  match locals.reverse.find? (fun p => p.1 = word) with
  | some (_, ty) => .ok ty
  | none =>
      match ctxGet ctx word with
      | some ty => .ok ty
      | none => .error .UnboundSymbol

/-- Embeds `TypeChecker::collect_types`: phase 1, data type names. -/
def collect_types (types : List String) :
    List TopLevel → Outcome (List String)
  | [] => .ok types
  | .Data name _ :: rest =>
      if name ∈ types then .error .TypeAlreadyDefined
      else collect_types (name :: types) rest
  | .Def _ _ _ _ :: rest => collect_types types rest

/-- Inner loop of `collect_constructors` over one data declaration. -/
def collect_ctor_list (type_name : String) (ctx : Ctx) :
    List Constructor → Outcome Ctx
  | [] => .ok ctx
  | ⟨name, argument_types⟩ :: rest =>
      let inputs := type_expr_list argument_types
      if (ctxGet ctx name).isSome then .error .SymbolAlreadyDefined
      else
        collect_ctor_list type_name
          ((name, .Function inputs [.Basic type_name]) :: ctx) rest

/-- Embeds `TypeChecker::collect_constructors`: phase 2. -/
def collect_constructors (ctx : Ctx) : List TopLevel → Outcome Ctx
  | [] => .ok ctx
  | .Data type_name constructors :: rest =>
      match collect_ctor_list type_name ctx constructors with
      | .ok ctx' => collect_constructors ctx' rest
      | .error e => .error e
      | .panicked => .panicked
  | .Def _ _ _ _ :: rest => collect_constructors ctx rest

/-- Embeds `TypeChecker::collect_defs`: phase 3, function signatures. -/
def collect_defs (ctx : Ctx) : List TopLevel → Outcome Ctx
  | [] => .ok ctx
  | .Data _ _ :: rest => collect_defs ctx rest
  | .Def name inputs outputs _ :: rest =>
      let ty := Ty.Function (type_expr_list inputs) (type_expr_list outputs)
      if (ctxGet ctx name).isSome then .error .SymbolAlreadyDefined
      else collect_defs ((name, ty) :: ctx) rest

mutual

/-- Embeds `TypeChecker::pattern_fits`.  Returns `none` exactly where the
Rust code panics: the looked-up signature has an output arity other than
one, which triggers `unreachable!()`. -/
def pattern_fits (ctx : Ctx) : Ty → Pattern → Option Bool
  | input, .Constructor name arguments =>
      (match ctxGet ctx name with
       | some (.Function inputs outputs) =>
           (match outputs with
            | [output_type] =>
                if output_type ≠ input then some false
                else if inputs.length ≠ arguments.length then some false
                else pattern_fits_all ctx inputs arguments
            | _ => none)
       | _ => some false)
  | _, .All _ => some true

/-- The `inputs.iter().zip(arguments).all(...)` loop: zip truncates to the
shorter list and `all` short-circuits at the first `false`. -/
def pattern_fits_all (ctx : Ctx) : List Ty → List Pattern → Option Bool
  | _, [] => some true
  | [], _ :: _ => some true
  | i :: is, p :: ps =>
      (match pattern_fits ctx i p with
       | none => none
       | some false => some false
       | some true => pattern_fits_all ctx is ps)

end

mutual

/-- Embeds `TypeChecker::define_pattern_locals`.  Returns `none` exactly
where the Rust code panics: the name is absent from the table or not bound
to a `Function`, which triggers `unreachable!()`. -/
def define_pattern_locals (ctx : Ctx) (locals : Locals) :
    Ty → Pattern → Option Locals
  | input, .All name => some (locals ++ [(name, input)])
  | _, .Constructor name arguments =>
      (match ctxGet ctx name with
       | some (.Function inputs _) =>
           define_pattern_locals_list ctx locals inputs arguments
       | _ => none)

/-- The `inputs.clone().into_iter().zip(arguments)` loop (zip truncates). -/
def define_pattern_locals_list (ctx : Ctx) (locals : Locals) :
    List Ty → List Pattern → Option Locals
  | _, [] => some locals
  | [], _ :: _ => some locals
  | i :: is, p :: ps =>
      (match define_pattern_locals ctx locals i p with
       | none => none
       | some locals' => define_pattern_locals_list ctx locals' is ps)

end

mutual

/-- Embeds `TypeChecker::type_check_expr`.  The stack's top is the list's
last element.  In the `Unquote` case the Rust code computes
`stack.len() - inputs.len()` without first checking that the reduced stack
is long enough; when it is not, the `usize` subtraction underflows (or the
slice start is out of range) and the program panics, embedded here as
`.panicked`. -/
def type_check_expr (ctx : Ctx) (locals : Locals) :
    Expr → List Ty → Outcome (List Ty)
  | .Word word, stack =>
      (match resolve_word locals ctx word with
       | .error e => .error e
       | .panicked => .panicked
       | .ok (.Basic name) => .ok (stack ++ [.Basic name])
       | .ok (.Quotation inputs outputs) =>
           .ok (stack ++ [.Quotation inputs outputs])
       | .ok (.Function inputs outputs) =>
           if inputs.length > stack.length then .error .TypeMismatch
           else if stack.drop (stack.length - inputs.length) ≠ inputs then
             .error .TypeMismatch
           else .ok (stack.take (stack.length - inputs.length) ++ outputs))
  | .Quotation type_inputs quotation, stack =>
      let inputs := type_expr_list type_inputs
      (match type_check_body ctx locals quotation inputs with
       | .error e => .error e
       | .panicked => .panicked
       | .ok outputs => .ok (stack ++ [.Quotation inputs outputs]))
  | .Unquote, stack =>
      (match stack.getLast? with
       | none => .error .TypeMismatch
       | some (.Basic _) => .error .TypeMismatch
       | some (.Function _ _) => .error .TypeMismatch
       | some (.Quotation inputs outputs) =>
           let stack' := stack.dropLast
           if inputs.length > stack'.length then .panicked
           else if stack'.drop (stack'.length - inputs.length) ≠ inputs then
             .error .TypeMismatch
           else
             .ok (stack'.take (stack'.length - inputs.length) ++ outputs))

/-- The `for expr in quotation { self.type_check_expr(expr, ...)? }` loop,
threading the simulated stack left to right. -/
def type_check_body (ctx : Ctx) (locals : Locals) :
    List Expr → List Ty → Outcome (List Ty)
  | [], stack => .ok stack
  | e :: es, stack =>
      (match type_check_expr ctx locals e stack with
       | .ok stack' => type_check_body ctx locals es stack'
       | .error err => .error err
       | .panicked => .panicked)

end

/-- The branch loop of `TypeChecker::type_check_defs`, with the locals
vector threaded explicitly (it is a field of the mutable checker in Rust,
so its value on error paths is part of the checker's observable state).
Note the Rust code runs `self.locals.truncate(locals_len)` only after the
body loop completes without error: an error inside the body propagates via
`?` before the truncation. -/
def type_check_branches (ctx : Ctx) (inputs outputs : List Ty)
    (locals : Locals) : List Branch → Outcome Unit × Locals
  | [] => (.ok (), locals)
  | ⟨patterns, body⟩ :: rest =>
      if inputs.length < patterns.length then
        (.error .TypeMismatch, locals)
      else
        let matched := inputs.take patterns.length
        let leftover := inputs.drop patterns.length
        (match pattern_fits_all ctx matched patterns with
         | none => (.panicked, locals)
         | some false => (.error .TypeMismatch, locals)
         | some true =>
             let locals_len := locals.length
             (match define_pattern_locals_list ctx locals matched patterns with
              | none => (.panicked, locals)
              | some locals1 =>
                  (match type_check_body ctx locals1 body leftover with
                   | .panicked => (.panicked, locals1)
                   | .error e => (.error e, locals1)
                   | .ok stack =>
                       let locals2 := locals1.take locals_len
                       if outputs ≠ stack then (.error .TypeMismatch, locals2)
                       else
                         type_check_branches ctx inputs outputs locals2 rest)))

/-- Embeds `TypeChecker::type_check_defs`: phase 4.  The `unwrap` on the
global-table lookup is embedded as `.panicked` when the lookup misses. -/
def type_check_defs (ctx : Ctx) (locals : Locals) :
    List TopLevel → Outcome Unit × Locals
  | [] => (.ok (), locals)
  | .Data _ _ :: rest => type_check_defs ctx locals rest
  | .Def name _ _ branches :: rest =>
      (match ctxGet ctx name with
       | none => (.panicked, locals)
       | some ty =>
           let io : List Ty × List Ty :=
             match ty with
             | .Basic s => ([], [.Basic s])
             | .Quotation i o => ([], [.Quotation i o])
             | .Function i o => (i, o)
           (match type_check_branches ctx io.1 io.2 locals branches with
            | (.ok _, locals') => type_check_defs ctx locals' rest
            | r => r))

/-- Embeds `TypeChecker::type_check` run on a fresh checker
(`TypeChecker::new()`), also exposing the final locals vector. -/
def type_check_full (top_levels : List TopLevel) : Outcome Unit × Locals :=
  match collect_types [] top_levels with
  | .error e => (.error e, [])
  | .panicked => (.panicked, [])
  | .ok _ =>
      match collect_constructors [] top_levels with
      | .error e => (.error e, [])
      | .panicked => (.panicked, [])
      | .ok ctx1 =>
          match collect_defs ctx1 top_levels with
          | .error e => (.error e, [])
          | .panicked => (.panicked, [])
          | .ok ctx2 => type_check_defs ctx2 [] top_levels

/-- The checker's public verdict. -/
def type_check (top_levels : List TopLevel) : Outcome Unit :=
  (type_check_full top_levels).1

/-! Vocabulary used to state the claims. -/

/-- Whether a checker step succeeded. -/
def outcomeOk {α : Type} : Outcome α → Bool
  | .ok _ => true
  | _ => false

/-- Names introduced by data declarations, in order. -/
def typeNames : List TopLevel → List String
  | [] => []
  | .Data n _ :: rest => n :: typeNames rest
  | .Def _ _ _ _ :: rest => typeNames rest

/-- Names of all declared constructors, in order. -/
def ctorNames : List TopLevel → List String
  | [] => []
  | .Data _ cs :: rest => cs.map Constructor.name ++ ctorNames rest
  | .Def _ _ _ _ :: rest => ctorNames rest

/-- Names of all function definitions, in order. -/
def defNames : List TopLevel → List String
  | [] => []
  | .Data _ _ :: rest => defNames rest
  | .Def n _ _ _ :: rest => n :: defNames rest

mutual

/-- A type containing no `Function` constructor anywhere. -/
def noFun : Ty → Bool
  | .Basic _ => true
  | .Function _ _ => false
  | .Quotation ins outs => noFunList ins && noFunList outs

/-- List version of `noFun`. -/
def noFunList : List Ty → Bool
  | [] => true
  | t :: ts => noFun t && noFunList ts

end

/-- Shape of every global-table entry: a `Function` whose input and output
lists are `Function`-free. -/
def goodSig : Ty → Bool
  | .Function i o => noFunList i && noFunList o
  | _ => false

/-- Every global-table value is a well-shaped `Function` signature. -/
def ctxGood (ctx : Ctx) : Bool := ctx.all fun p => goodSig p.2

/-- Every local binding carries a `Function`-free type. -/
def localsGood (locals : Locals) : Bool := locals.all fun p => noFun p.2

/-! Concrete programs used as counterexamples, failing inputs and
witnesses. -/

/-- A body that pushes a quotation demanding one input and immediately
applies it with nothing underneath. -/
def progApplyUnderflow : List TopLevel :=
  [.Def "f" [] []
    [⟨[], [Expr.Quotation [TypeExpr.Word "A"] [], Expr.Unquote]⟩]]

/-- Apply with an empty stack (spec Scenario E). -/
def progApplyEmpty : List TopLevel :=
  [.Def "f" [] [] [⟨[], [Expr.Unquote]⟩]]

/-- A branch that binds a pattern local and then fails inside its body. -/
def progLeakLocals : List TopLevel :=
  [.Def "f" [TypeExpr.Word "A"] [TypeExpr.Word "A"]
    [⟨[Pattern.All "x"], [Expr.Word "y"]⟩]]

/-- A two-output function used as a constructor pattern. -/
def progPatternOnMultiOut : List TopLevel :=
  [.Def "f" [] [TypeExpr.Word "A", TypeExpr.Word "B"] [],
   .Def "g" [TypeExpr.Word "A"] [TypeExpr.Word "A"]
     [⟨[Pattern.Constructor "f" []], []⟩]]

/-- Two data declarations sharing a type name, each also declaring a
constructor named `c`. -/
def progDupTypeAndCtor : List TopLevel :=
  [.Data "T" [⟨"c", []⟩], .Data "T" [⟨"c", []⟩]]

/-- Two function definitions sharing a name. -/
def progDupDef : List TopLevel :=
  [.Def "f" [] [] [], .Def "f" [] [] []]

/-! Theorems. -/

/-- C1: the apply (unquote) case of the expression checker diverges from
the claim.  When the popped top of stack is a quotation whose input list is
longer than the remaining stack, the Rust code computes
`stack.len() - inputs.len()` without a length guard, so the `usize`
subtraction underflows and the program panics instead of returning
`TypeMismatch`.  `progApplyUnderflow` pushes a one-input quotation onto an
empty stack and applies it: the checker panics.  The empty-stack pop case
(spec Scenario E) does return `TypeMismatch` as claimed. -/
theorem unquote_underflow_panics :
    type_check progApplyUnderflow = .panicked ∧
    type_check progApplyEmpty = .error .TypeMismatch := by decide

/-- C4: `pattern_fits` is not total.  When a constructor pattern names a
global symbol whose signature has an output arity other than one (here the
function `f` with two declared outputs), the Rust code hits
`unreachable!()` and panics rather than returning `false`.  The panic is
reachable from the public entry point, as `progPatternOnMultiOut` shows. -/
theorem pattern_fits_multi_output_panics :
    pattern_fits [("f", Ty.Function [] [Ty.Basic "A", Ty.Basic "B"])]
        (Ty.Basic "A") (Pattern.Constructor "f" []) = none ∧
    type_check progPatternOnMultiOut = .panicked := by decide

/-- C2 counterexample: the local scope is NOT restored on every exit path.
In `progLeakLocals` the single branch binds the pattern local `x` and its
body then fails with `UnboundSymbol`; the early return skips
`locals.truncate`, so after the failed check the locals vector still holds
the binding, with length 1 instead of the pre-branch length 0. -/
theorem locals_leak_on_body_error :
    type_check_full progLeakLocals =
      (.error .UnboundSymbol, [("x", Ty.Basic "A")]) ∧
    ((type_check_full progLeakLocals).2).length ≠ 0 := by decide

/-- C3 counterexample: the verdict of a quotation-literal body does depend
on the enclosing local scope.  The body `x` of the quotation `[ -> x]`
checks successfully when the enclosing branch binds the local `x`, and
fails with `UnboundSymbol` when the enclosing local scope is empty. -/
theorem quotation_body_sees_enclosing_locals :
    type_check_expr [] [("x", Ty.Basic "A")]
        (Expr.Quotation [] [Expr.Word "x"]) [] =
      .ok [Ty.Quotation [] [Ty.Basic "A"]] ∧
    type_check_expr [] [] (Expr.Quotation [] [Expr.Word "x"]) [] =
      .error .UnboundSymbol := by decide

/-- C3 amended: quotation checking is isolated from the enclosing STACK
(though not from the enclosing local scope): for any two enclosing stack
contents, checking the same quotation literal under the same global table
and local scope yields the same accept/reject verdict. -/
theorem quotation_check_ignores_enclosing_stack (ctx : Ctx)
    (locals : Locals) (tins : List TypeExpr) (body : List Expr)
    (s1 s2 : List Ty) :
    outcomeOk (type_check_expr ctx locals (.Quotation tins body) s1) =
      outcomeOk (type_check_expr ctx locals (.Quotation tins body) s2) := by
  cases h : type_check_body ctx locals body (type_expr_list tins) <;>
    simp [type_check_expr, h, outcomeOk]

/-- C7 counterexample: a program containing two constructors with the same
name is claimed to fail with `SymbolAlreadyDefined`, but when the program
also declares two data types with the same name, the earlier type-name
pass fails first with `TypeAlreadyDefined`. -/
theorem dup_ctor_masked_by_dup_type :
    ¬ (ctorNames progDupTypeAndCtor).Nodup ∧
    type_check progDupTypeAndCtor = .error .TypeAlreadyDefined := by
  exact ⟨by decide, by decide⟩

/-- C5: a word reference resolving to a `Function{inputs, outputs}` is a
call: it fails with `TypeMismatch` when the stack is shorter than `inputs`
or when the top `inputs.length` slots (bottom to top) differ from
`inputs`; otherwise it pops exactly `inputs.length` slots and pushes
`outputs` in order, so the stack depth changes by
`outputs.length - inputs.length`. -/
theorem word_call_stack_effect (ctx : Ctx) (locals : Locals)
    (word : String) (stack inputs outputs : List Ty)
    (h : resolve_word locals ctx word = .ok (.Function inputs outputs)) :
    (stack.length < inputs.length →
      type_check_expr ctx locals (.Word word) stack = .error .TypeMismatch) ∧
    (inputs.length ≤ stack.length →
      stack.drop (stack.length - inputs.length) ≠ inputs →
      type_check_expr ctx locals (.Word word) stack = .error .TypeMismatch) ∧
    (inputs.length ≤ stack.length →
      stack.drop (stack.length - inputs.length) = inputs →
      type_check_expr ctx locals (.Word word) stack =
        .ok (stack.take (stack.length - inputs.length) ++ outputs) ∧
      (stack.take (stack.length - inputs.length) ++ outputs).length
          + inputs.length = stack.length + outputs.length) := by
  refine ⟨?_, ?_, ?_⟩
  · intro hlt
    simp [type_check_expr, h, hlt]
  · intro hle hne
    simp [type_check_expr, h, Nat.not_lt.mpr hle, hne]
  · intro hle heq
    refine ⟨by simp [type_check_expr, h, Nat.not_lt.mpr hle, heq], ?_⟩
    simp only [List.length_append, List.length_take]
    omega

/-- C8: checking a quotation literal lowers its declared inputs, checks the
body against an isolated stack seeded with exactly those types (the
enclosing stack does not appear), propagates any failure, and on success
pushes onto the enclosing stack exactly one `Quotation` value whose inputs
are the declared inputs and whose outputs are the entire isolated stack
left by the body. -/
theorem quotation_literal_effect (ctx : Ctx) (locals : Locals)
    (tins : List TypeExpr) (body : List Expr) (stack : List Ty) :
    type_check_expr ctx locals (.Quotation tins body) stack =
      match type_check_body ctx locals body (type_expr_list tins) with
      | .ok outs => .ok (stack ++ [.Quotation (type_expr_list tins) outs])
      | .error e => .error e
      | .panicked => .panicked := by
  cases h : type_check_body ctx locals body (type_expr_list tins) <;>
    simp [type_check_expr, h]

/-- C6: a branch whose patterns fit and whose body checks without error is
accepted (checking moves on to the remaining branches) exactly when the
final simulated stack equals the declared outputs; any deviation yields
`TypeMismatch`. -/
theorem branch_accept_iff_stack_matches (ctx : Ctx)
    (inputs outputs : List Ty) (locals locals1 : Locals)
    (patterns : List Pattern) (body : List Expr) (rest : List Branch)
    (stack : List Ty)
    (hlen : patterns.length ≤ inputs.length)
    (hfit : pattern_fits_all ctx (inputs.take patterns.length) patterns
      = some true)
    (hdpl : define_pattern_locals_list ctx locals
      (inputs.take patterns.length) patterns = some locals1)
    (hbody : type_check_body ctx locals1 body (inputs.drop patterns.length)
      = .ok stack) :
    type_check_branches ctx inputs outputs locals
        (⟨patterns, body⟩ :: rest) =
      if outputs = stack then
        type_check_branches ctx inputs outputs (locals1.take locals.length)
          rest
      else (.error .TypeMismatch, locals1.take locals.length) := by
  simp only [type_check_branches, Nat.not_lt.mpr hlen, if_false, hfit, hdpl,
    hbody, ite_not]

/-- C5 witness: `dup` with signature `I -> I I` applied to a stack holding
one `I` succeeds and leaves two. -/
theorem word_call_stack_effect_witness :
    type_check_expr [("dup", Ty.Function [Ty.Basic "I"]
        [Ty.Basic "I", Ty.Basic "I"])] []
      (Expr.Word "dup") [Ty.Basic "I"] =
      .ok [Ty.Basic "I", Ty.Basic "I"] := by
  have h := (word_call_stack_effect
      [("dup", Ty.Function [Ty.Basic "I"] [Ty.Basic "I", Ty.Basic "I"])] []
      "dup" [Ty.Basic "I"] [Ty.Basic "I"] [Ty.Basic "I", Ty.Basic "I"]
      (by decide)).2.2 (by decide) (by decide)
  exact h.1.trans (by decide)

/-- C6 witness: a concrete branch whose patterns fit and whose body leaves
exactly the declared outputs is accepted. -/
theorem branch_accept_iff_stack_matches_witness :
    type_check_branches [] [Ty.Basic "A"] [Ty.Basic "A"] []
        [⟨[Pattern.All "x"], [Expr.Word "x"]⟩] = (.ok (), []) := by
  have h := branch_accept_iff_stack_matches [] [Ty.Basic "A"] [Ty.Basic "A"]
    [] [("x", Ty.Basic "A")] [Pattern.All "x"] [Expr.Word "x"] []
    [Ty.Basic "A"] (by decide) (by decide) (by decide) (by decide)
  rw [h]; decide

/- Helper lemmas: `define_pattern_locals` only appends to the locals
vector, so the pre-branch locals are always a prefix of the post-binding
locals. -/
mutual

theorem define_pattern_locals_extends (ctx : Ctx) :
    ∀ (locals : Locals) (t : Ty) (p : Pattern) (l' : Locals),
      define_pattern_locals ctx locals t p = some l' → locals <+: l'
  | locals, t, .All name, l', h => by
      simp only [define_pattern_locals, Option.some.injEq] at h
      exact ⟨[(name, t)], h⟩
  | locals, t, .Constructor name args, l', h => by
      simp only [define_pattern_locals] at h
      cases hc : ctxGet ctx name with
      | none => rw [hc] at h; cases h
      | some ty =>
          cases ty with
          | Basic s => rw [hc] at h; cases h
          | Quotation i o => rw [hc] at h; cases h
          | Function i o =>
              rw [hc] at h
              exact define_pattern_locals_list_extends ctx locals i args l' h

theorem define_pattern_locals_list_extends (ctx : Ctx) :
    ∀ (locals : Locals) (ts : List Ty) (ps : List Pattern) (l' : Locals),
      define_pattern_locals_list ctx locals ts ps = some l' → locals <+: l'
  | locals, [], [], l', h => by
      simp only [define_pattern_locals_list, Option.some.injEq] at h
      exact h ▸ List.prefix_refl _
  | locals, _ :: _, [], l', h => by
      simp only [define_pattern_locals_list, Option.some.injEq] at h
      exact h ▸ List.prefix_refl _
  | locals, [], _ :: _, l', h => by
      simp only [define_pattern_locals_list, Option.some.injEq] at h
      exact h ▸ List.prefix_refl _
  | locals, t :: ts, p :: ps, l', h => by
      simp only [define_pattern_locals_list] at h
      cases hd : define_pattern_locals ctx locals t p with
      | none => rw [hd] at h; cases h
      | some lmid =>
          rw [hd] at h
          exact (define_pattern_locals_extends ctx locals t p lmid hd).trans
            (define_pattern_locals_list_extends ctx lmid ts ps l' h)

end

/-- Helper: a fully successful branch-list check returns the locals it
started from. -/
theorem branch_success_restores_locals (ctx : Ctx)
    (inputs outputs : List Ty) :
    ∀ (branches : List Branch) (locals locals' : Locals) (u : Unit),
      type_check_branches ctx inputs outputs locals branches
        = (.ok u, locals') →
      locals' = locals := by
  intro branches
  induction branches with
  | nil =>
      intro locals locals' u h
      simp only [type_check_branches, Prod.mk.injEq] at h
      exact h.2.symm
  | cons b rest ih =>
      intro locals locals' u h
      obtain ⟨patterns, body⟩ := b
      simp only [type_check_branches] at h
      by_cases hlen : inputs.length < patterns.length
      · rw [if_pos hlen] at h
        simp at h
      · rw [if_neg hlen] at h
        cases hf : pattern_fits_all ctx (inputs.take patterns.length)
            patterns with
        | none => rw [hf] at h; simp at h
        | some fits =>
            rw [hf] at h
            cases fits with
            | false => simp at h
            | true =>
                simp only at h
                cases hd : define_pattern_locals_list ctx locals
                    (inputs.take patterns.length) patterns with
                | none => rw [hd] at h; simp at h
                | some locals1 =>
                    rw [hd] at h
                    simp only at h
                    cases hb : type_check_body ctx locals1 body
                        (inputs.drop patterns.length) with
                    | panicked => rw [hb] at h; simp at h
                    | error e => rw [hb] at h; simp at h
                    | ok stack =>
                        rw [hb] at h
                        simp only at h
                        by_cases hout : outputs ≠ stack
                        · rw [if_pos hout] at h; simp at h
                        · rw [if_neg hout] at h
                          have hpre := define_pattern_locals_list_extends
                            ctx locals (inputs.take patterns.length)
                            patterns locals1 hd
                          have htake : List.take locals.length locals1
                              = locals :=
                            (List.prefix_iff_eq_take.mp hpre).symm
                          rw [htake] at h
                          exact ih locals locals' u h

/-- C2 amended: the local scope is restored to exactly its pre-branch
contents on every exit of a branch check that does not come from a body
error.  Three parts: on the success exit of a branch the remaining
branches are checked with exactly the pre-branch locals; on the
output-mismatch exit (body checks fine but the final stack differs from
the declared outputs) the `TypeMismatch` error carries exactly the
pre-branch locals, because the truncation runs before the output
comparison; and consequently a fully successful check hands back the
locals it started from.  When a body errors the truncation is skipped, as
the counterexample shows. -/
theorem branch_locals_restored_without_body_error :
    (∀ (ctx : Ctx) (inputs outputs : List Ty) (locals locals1 : Locals)
        (patterns : List Pattern) (body : List Expr) (rest : List Branch)
        (stack : List Ty),
      patterns.length ≤ inputs.length →
      pattern_fits_all ctx (inputs.take patterns.length) patterns
        = some true →
      define_pattern_locals_list ctx locals (inputs.take patterns.length)
        patterns = some locals1 →
      type_check_body ctx locals1 body (inputs.drop patterns.length)
        = .ok stack →
      outputs = stack →
      type_check_branches ctx inputs outputs locals
          (⟨patterns, body⟩ :: rest)
        = type_check_branches ctx inputs outputs locals rest) ∧
    (∀ (ctx : Ctx) (inputs outputs : List Ty) (locals locals1 : Locals)
        (patterns : List Pattern) (body : List Expr) (rest : List Branch)
        (stack : List Ty),
      patterns.length ≤ inputs.length →
      pattern_fits_all ctx (inputs.take patterns.length) patterns
        = some true →
      define_pattern_locals_list ctx locals (inputs.take patterns.length)
        patterns = some locals1 →
      type_check_body ctx locals1 body (inputs.drop patterns.length)
        = .ok stack →
      outputs ≠ stack →
      type_check_branches ctx inputs outputs locals
          (⟨patterns, body⟩ :: rest)
        = (.error .TypeMismatch, locals)) ∧
    (∀ (ctx : Ctx) (inputs outputs : List Ty) (branches : List Branch)
        (locals locals' : Locals) (u : Unit),
      type_check_branches ctx inputs outputs locals branches
        = (.ok u, locals') →
      locals' = locals) := by
  refine ⟨?_, ?_, ?_⟩
  · intro ctx inputs outputs locals locals1 patterns body rest stack
      hlen hfit hdpl hbody heq
    have htake : List.take locals.length locals1 = locals :=
      (List.prefix_iff_eq_take.mp
        (define_pattern_locals_list_extends ctx locals
          (inputs.take patterns.length) patterns locals1 hdpl)).symm
    simp only [type_check_branches, Nat.not_lt.mpr hlen, if_false, hfit,
      hdpl, hbody, ite_not, heq, if_pos, htake]
  · intro ctx inputs outputs locals locals1 patterns body rest stack
      hlen hfit hdpl hbody hne
    have htake : List.take locals.length locals1 = locals :=
      (List.prefix_iff_eq_take.mp
        (define_pattern_locals_list_extends ctx locals
          (inputs.take patterns.length) patterns locals1 hdpl)).symm
    simp only [type_check_branches, Nat.not_lt.mpr hlen, if_false, hfit,
      hdpl, hbody, ite_not, htake, if_neg hne]
  · intro ctx inputs outputs branches locals locals' u h
    exact branch_success_restores_locals ctx inputs outputs branches
      locals locals' u h

/-- C2 amended witness: concrete branch runs exercising all three parts;
the success exit and the output-mismatch exit both hand back exactly the
nonempty pre-branch scope. -/
theorem branch_locals_restored_without_body_error_witness :
    (type_check_branches [] [Ty.Basic "A"] [Ty.Basic "A"]
        [("z", Ty.Basic "B")] [⟨[Pattern.All "x"], [Expr.Word "x"]⟩]
      = type_check_branches [] [Ty.Basic "A"] [Ty.Basic "A"]
          [("z", Ty.Basic "B")] []) ∧
    (type_check_branches [] [Ty.Basic "A"] [Ty.Basic "C"]
        [("z", Ty.Basic "B")] [⟨[Pattern.All "x"], [Expr.Word "x"]⟩]
      = (.error .TypeMismatch, [("z", Ty.Basic "B")])) ∧
    ([("z", Ty.Basic "B")] : Locals) = [("z", Ty.Basic "B")] :=
  ⟨branch_locals_restored_without_body_error.1 [] [Ty.Basic "A"]
      [Ty.Basic "A"] [("z", Ty.Basic "B")]
      [("z", Ty.Basic "B"), ("x", Ty.Basic "A")] [Pattern.All "x"]
      [Expr.Word "x"] [] [Ty.Basic "A"] (by decide) (by decide)
      (by decide) (by decide) (by decide),
    branch_locals_restored_without_body_error.2.1 [] [Ty.Basic "A"]
      [Ty.Basic "C"] [("z", Ty.Basic "B")]
      [("z", Ty.Basic "B"), ("x", Ty.Basic "A")] [Pattern.All "x"]
      [Expr.Word "x"] [] [Ty.Basic "A"] (by decide) (by decide)
      (by decide) (by decide) (by decide),
    branch_locals_restored_without_body_error.2.2 [] [Ty.Basic "A"]
      [Ty.Basic "A"] [⟨[Pattern.All "x"], [Expr.Word "x"]⟩]
      [("z", Ty.Basic "B")] [("z", Ty.Basic "B")] () (by decide)⟩

/-- Helper: a successful `collect_defs` pass never overwrites an existing
global-table binding (it fails instead of inserting a present key). -/
theorem collect_defs_preserves (tls : List TopLevel) :
    ∀ (c0 c' : Ctx) (k : String) (v : Ty),
      collect_defs c0 tls = .ok c' → ctxGet c0 k = some v →
      ctxGet c' k = some v := by
  induction tls with
  | nil =>
      intro c0 c' k v h hk
      simp only [collect_defs, Outcome.ok.injEq] at h
      exact h ▸ hk
  | cons tl rest ih =>
      intro c0 c' k v h hk
      cases tl with
      | Data n cs => exact ih c0 c' k v (by simpa [collect_defs] using h) hk
      | Def n i o bs =>
          simp only [collect_defs] at h
          by_cases hp : (ctxGet c0 n).isSome = true
          · rw [if_pos hp] at h; cases h
          · rw [if_neg hp] at h
            apply ih _ c' k v h
            simp only [ctxGet]
            by_cases hnk : n = k
            · subst hnk; rw [hk] at hp; simp at hp
            · rw [if_neg hnk]; exact hk

/-- Helper: after a successful `collect_defs` pass, every definition name
is bound in the global table to its lowered `Function` signature. -/
theorem collect_defs_binds (tls : List TopLevel) :
    ∀ (c0 c' : Ctx), collect_defs c0 tls = .ok c' →
      ∀ (n : String) (i o : List TypeExpr) (bs : List Branch),
        TopLevel.Def n i o bs ∈ tls →
        ctxGet c' n
          = some (.Function (type_expr_list i) (type_expr_list o)) := by
  induction tls with
  | nil => intro c0 c' h n i o bs hmem; cases hmem
  | cons tl rest ih =>
      intro c0 c' h n i o bs hmem
      cases hmem with
      | head as =>
          simp only [collect_defs] at h
          by_cases hp : (ctxGet c0 n).isSome = true
          · rw [if_pos hp] at h; cases h
          · rw [if_neg hp] at h
            apply collect_defs_preserves rest _ c' n _ h
            simp [ctxGet]
      | tail _ hmem =>
          cases tl with
          | Data tn cs =>
              exact ih c0 c' (by simpa [collect_defs] using h) n i o bs hmem
          | Def n2 i2 o2 bs2 =>
              simp only [collect_defs] at h
              by_cases hp : (ctxGet c0 n2).isSome = true
              · rw [if_pos hp] at h; cases h
              · rw [if_neg hp] at h
                exact ih _ c' h n i o bs hmem

/-- C9: when the three collection phases all succeed, the global-table
lookup done by the definition-verification phase succeeds for every
definition name and yields a `Function` signature, so the unwrap never
panics and the Basic/Quotation fallback arms are never taken. -/
theorem def_lookup_yields_function (tls : List TopLevel) (ts : List String)
    (c1 c2 : Ctx)
    (_h1 : collect_types [] tls = .ok ts)
    (_h2 : collect_constructors [] tls = .ok c1)
    (h3 : collect_defs c1 tls = .ok c2)
    (n : String) (i o : List TypeExpr) (bs : List Branch)
    (hmem : TopLevel.Def n i o bs ∈ tls) :
    ∃ ins outs, ctxGet c2 n = some (.Function ins outs) :=
  ⟨type_expr_list i, type_expr_list o,
    collect_defs_binds tls c1 c2 h3 n i o bs hmem⟩

/-- C9 witness: a one-definition program whose phases succeed and whose
definition name is bound to a `Function` in the resulting table. -/
theorem def_lookup_yields_function_witness :
    ∃ ins outs,
      ctxGet [("f", Ty.Function [] [])] "f"
        = some (.Function ins outs) :=
  def_lookup_yields_function [.Def "f" [] [] []] [] []
    [("f", Ty.Function [] [])] (by decide) (by decide) (by decide)
    "f" [] [] [] (List.Mem.head _)

/-- Helper: looking up the key just inserted at the front succeeds. -/
theorem ctxGet_cons_self (k : String) (v : Ty) (c : Ctx) :
    ctxGet ((k, v) :: c) k = some v := by simp [ctxGet]

/-- Helper: inserting a binding preserves the presence of other keys. -/
theorem ctxGet_cons_isSome (k : String) (v : Ty) (c : Ctx) (m : String)
    (h : (ctxGet c m).isSome = true) :
    (ctxGet ((k, v) :: c) m).isSome = true := by
  simp only [ctxGet]
  by_cases hk : k = m
  · simp [hk]
  · simpa [hk] using h

/-- Helper: presence of a key after a front insertion, both directions. -/
theorem ctxGet_cons_isSome_iff (k : String) (v : Ty) (c : Ctx)
    (m : String) :
    (ctxGet ((k, v) :: c) m).isSome = true ↔
      (k = m ∨ (ctxGet c m).isSome = true) := by
  simp only [ctxGet]
  by_cases hk : k = m <;> simp [hk]

/-- Helper: phase 1 returns `TypeAlreadyDefined` whenever the declared
type names repeat or collide with the already-seen name set. -/
theorem collect_types_dup (tls : List TopLevel) :
    ∀ t0 : List String,
      (¬ (typeNames tls).Nodup ∨ ∃ n ∈ typeNames tls, n ∈ t0) →
      collect_types t0 tls = .error .TypeAlreadyDefined := by
  induction tls with
  | nil => intro t0 h; simp [typeNames] at h
  | cons tl rest ih =>
      intro t0 h
      cases tl with
      | Def n i o bs =>
          simp only [typeNames] at h
          simpa [collect_types] using ih t0 h
      | Data n cs =>
          simp only [typeNames] at h
          by_cases hmem : n ∈ t0
          · simp [collect_types, hmem]
          · simp only [collect_types, if_neg hmem]
            apply ih
            rcases h with hnd | ⟨m, hm, hmt⟩
            · rw [List.nodup_cons, not_and_or, not_not] at hnd
              rcases hnd with hn | hnd
              · exact Or.inr ⟨n, hn, List.mem_cons_self n t0⟩
              · exact Or.inl hnd
            · rcases List.mem_cons.mp hm with rfl | hm'
              · exact absurd hmt hmem
              · exact Or.inr ⟨m, hm', List.mem_cons_of_mem n hmt⟩

/-- Helper: phase 1 succeeds when the declared type names are distinct and
avoid the already-seen set. -/
theorem collect_types_ok (tls : List TopLevel) :
    ∀ t0 : List String, (typeNames tls).Nodup →
      (∀ n ∈ typeNames tls, n ∉ t0) →
      ∃ ts, collect_types t0 tls = .ok ts := by
  induction tls with
  | nil => intro t0 _ _; exact ⟨t0, rfl⟩
  | cons tl rest ih =>
      intro t0 hnd hdisj
      cases tl with
      | Def n i o bs =>
          simp only [typeNames] at hnd hdisj
          simpa [collect_types] using ih t0 hnd hdisj
      | Data n cs =>
          simp only [typeNames, List.nodup_cons] at hnd
          simp only [typeNames] at hdisj
          have hmem : n ∉ t0 := hdisj n (List.mem_cons_self _ _)
          simp only [collect_types, if_neg hmem]
          apply ih (n :: t0) hnd.2
          intro m hm
          simp only [List.mem_cons, not_or]
          exact ⟨fun he => hnd.1 (he ▸ hm),
            hdisj m (List.mem_cons_of_mem n hm)⟩

/-- Helper: the constructor loop of one data declaration fails with
`SymbolAlreadyDefined` when its constructor names repeat or are already
present in the global table. -/
theorem collect_ctor_list_dup (tn : String) (cs : List Constructor) :
    ∀ c0 : Ctx,
      (¬ (cs.map Constructor.name).Nodup ∨
        ∃ n ∈ cs.map Constructor.name, (ctxGet c0 n).isSome = true) →
      collect_ctor_list tn c0 cs = .error .SymbolAlreadyDefined := by
  induction cs with
  | nil => intro c0 h; simp at h
  | cons c rest ih =>
      intro c0 h
      obtain ⟨name, argts⟩ := c
      simp only [List.map_cons] at h
      by_cases hp : (ctxGet c0 name).isSome = true
      · simp [collect_ctor_list, hp]
      · simp only [collect_ctor_list, if_neg hp]
        apply ih
        rcases h with hnd | ⟨m, hm, hms⟩
        · rw [List.nodup_cons, not_and_or, not_not] at hnd
          rcases hnd with hn | hnd
          · refine Or.inr ⟨name, hn, ?_⟩
            rw [ctxGet_cons_self]; rfl
          · exact Or.inl hnd
        · rcases List.mem_cons.mp hm with rfl | hm'
          · exact absurd hms hp
          · exact Or.inr ⟨m, hm', ctxGet_cons_isSome _ _ _ _ hms⟩

/-- Helper: the constructor loop of one data declaration succeeds when the
names are fresh, and the resulting table holds exactly the old keys plus
those names. -/
theorem collect_ctor_list_ok (tn : String) (cs : List Constructor) :
    ∀ c0 : Ctx, (cs.map Constructor.name).Nodup →
      (∀ n ∈ cs.map Constructor.name, ctxGet c0 n = none) →
      ∃ c', collect_ctor_list tn c0 cs = .ok c' ∧
        ∀ k : String, (ctxGet c' k).isSome = true ↔
          ((ctxGet c0 k).isSome = true ∨ k ∈ cs.map Constructor.name) := by
  induction cs with
  | nil => intro c0 _ _; exact ⟨c0, rfl, by simp⟩
  | cons c rest ih =>
      intro c0 hnd hnone
      obtain ⟨name, argts⟩ := c
      simp only [List.map_cons, List.nodup_cons] at hnd
      simp only [List.map_cons] at hnone
      have hname : ctxGet c0 name = none :=
        hnone name (List.mem_cons_self _ _)
      have hp : ¬ (ctxGet c0 name).isSome = true := by simp [hname]
      simp only [collect_ctor_list, if_neg hp]
      obtain ⟨c', hc', hchar⟩ := ih
        ((name, .Function (type_expr_list argts) [.Basic tn]) :: c0) hnd.2
        (by
          intro m hm
          have hne : ¬ name = m := fun he => hnd.1 (he ▸ hm)
          simp only [ctxGet, if_neg hne]
          exact hnone m (List.mem_cons_of_mem _ hm))
      refine ⟨c', hc', fun k => ?_⟩
      rw [hchar k, ctxGet_cons_isSome_iff]
      constructor
      · rintro ((rfl | hk) | hk)
        · exact Or.inr (List.mem_cons_self _ _)
        · exact Or.inl hk
        · exact Or.inr (List.mem_cons_of_mem _ hk)
      · rintro (hk | hk)
        · exact Or.inl (Or.inr hk)
        · rcases List.mem_cons.mp hk with rfl | hk'
          · exact Or.inl (Or.inl rfl)
          · exact Or.inr hk'

/-- Helper: phase 2 fails with `SymbolAlreadyDefined` whenever constructor
names repeat or are already present. -/
theorem collect_constructors_dup (tls : List TopLevel) :
    ∀ c0 : Ctx,
      (¬ (ctorNames tls).Nodup ∨
        ∃ n ∈ ctorNames tls, (ctxGet c0 n).isSome = true) →
      collect_constructors c0 tls = .error .SymbolAlreadyDefined := by
  induction tls with
  | nil => intro c0 h; simp [ctorNames] at h
  | cons tl rest ih =>
      intro c0 h
      cases tl with
      | Def n i o bs =>
          simp only [ctorNames] at h
          simpa [collect_constructors] using ih c0 h
      | Data tn cs =>
          simp only [ctorNames] at h
          by_cases hfail : ¬ (cs.map Constructor.name).Nodup ∨
              ∃ n ∈ cs.map Constructor.name, (ctxGet c0 n).isSome = true
          · have hcl := collect_ctor_list_dup tn cs c0 hfail
            simp [collect_constructors, hcl]
          · push_neg at hfail
            obtain ⟨hnd, hnone⟩ := hfail
            obtain ⟨c', hc', hchar⟩ := collect_ctor_list_ok tn cs c0 hnd
              (fun n hn => Option.not_isSome_iff_eq_none.mp (hnone n hn))
            simp only [collect_constructors, hc']
            apply ih
            rcases h with hnd2 | ⟨m, hm, hms⟩
            · rw [List.nodup_append] at hnd2
              push_neg at hnd2
              by_cases hndr : (ctorNames rest).Nodup
              · have hdisjneg := hnd2 hnd hndr
                have hex : ∃ x, x ∈ cs.map Constructor.name ∧
                    x ∈ ctorNames rest := by
                  by_contra hno
                  push_neg at hno
                  exact hdisjneg fun x hxa hxb => hno x hxa hxb
                obtain ⟨x, hxa, hxb⟩ := hex
                exact Or.inr ⟨x, hxb, (hchar x).mpr (Or.inr hxa)⟩
              · exact Or.inl hndr
            · rcases List.mem_append.mp hm with hma | hmb
              · exact absurd hms (hnone m hma)
              · exact Or.inr ⟨m, hmb, (hchar m).mpr (Or.inl hms)⟩

/-- Helper: phase 2 succeeds when all constructor names are distinct and
fresh, and the resulting table holds exactly the old keys plus all
constructor names. -/
theorem collect_constructors_ok (tls : List TopLevel) :
    ∀ c0 : Ctx, (ctorNames tls).Nodup →
      (∀ n ∈ ctorNames tls, ctxGet c0 n = none) →
      ∃ c', collect_constructors c0 tls = .ok c' ∧
        ∀ k : String, (ctxGet c' k).isSome = true ↔
          ((ctxGet c0 k).isSome = true ∨ k ∈ ctorNames tls) := by
  induction tls with
  | nil => intro c0 _ _; exact ⟨c0, rfl, by simp [ctorNames]⟩
  | cons tl rest ih =>
      intro c0 hnd hnone
      cases tl with
      | Def n i o bs =>
          simp only [ctorNames] at hnd hnone ⊢
          simpa [collect_constructors] using ih c0 hnd hnone
      | Data tn cs =>
          simp only [ctorNames, List.nodup_append] at hnd
          simp only [ctorNames] at hnone ⊢
          obtain ⟨hnda, hndb, hdisj⟩ := hnd
          obtain ⟨c1, hc1, hchar1⟩ := collect_ctor_list_ok tn cs c0 hnda
            (fun n hn => hnone n (List.mem_append.mpr (Or.inl hn)))
          obtain ⟨c', hc', hchar⟩ := ih c1 hndb
            (by
              intro n hn
              rw [← Option.not_isSome_iff_eq_none, hchar1 n]
              push_neg
              refine ⟨?_, fun hna => hdisj hna hn⟩
              simp [hnone n (List.mem_append.mpr (Or.inr hn))])
          refine ⟨c', ?_, fun k => ?_⟩
          · simp only [collect_constructors, hc1]
            exact hc'
          · rw [hchar k, hchar1 k, List.mem_append]
            tauto

/-- Helper: phase 3 fails with `SymbolAlreadyDefined` whenever definition
names repeat or are already present in the global table. -/
theorem collect_defs_dup (tls : List TopLevel) :
    ∀ c0 : Ctx,
      (¬ (defNames tls).Nodup ∨
        ∃ n ∈ defNames tls, (ctxGet c0 n).isSome = true) →
      collect_defs c0 tls = .error .SymbolAlreadyDefined := by
  induction tls with
  | nil => intro c0 h; simp [defNames] at h
  | cons tl rest ih =>
      intro c0 h
      cases tl with
      | Data tn cs =>
          simp only [defNames] at h
          simpa [collect_defs] using ih c0 h
      | Def n i o bs =>
          simp only [defNames] at h
          by_cases hp : (ctxGet c0 n).isSome = true
          · simp [collect_defs, hp]
          · simp only [collect_defs, if_neg hp]
            apply ih
            rcases h with hnd | ⟨m, hm, hms⟩
            · rw [List.nodup_cons, not_and_or, not_not] at hnd
              rcases hnd with hn | hnd
              · refine Or.inr ⟨n, hn, ?_⟩
                rw [ctxGet_cons_self]; rfl
              · exact Or.inl hnd
            · rcases List.mem_cons.mp hm with rfl | hm'
              · exact absurd hms hp
              · exact Or.inr ⟨m, hm', ctxGet_cons_isSome _ _ _ _ hms⟩

/-- C7 amended: duplicate rejection with phase precedence.  Duplicate data
type names always yield `TypeAlreadyDefined` (phase 1 runs first); when
the type names are distinct, any duplicate among the constructor and
function names yields `SymbolAlreadyDefined`; and in every duplicate case
the verdict is one of those two errors, never `TypeMismatch`. -/
theorem duplicate_rejection (tls : List TopLevel) :
    (¬ (typeNames tls).Nodup →
      type_check tls = .error .TypeAlreadyDefined) ∧
    ((typeNames tls).Nodup → ¬ (ctorNames tls ++ defNames tls).Nodup →
      type_check tls = .error .SymbolAlreadyDefined) ∧
    (¬ (typeNames tls).Nodup ∨ ¬ (ctorNames tls ++ defNames tls).Nodup →
      type_check tls = .error .TypeAlreadyDefined ∨
      type_check tls = .error .SymbolAlreadyDefined) := by
  have part1 : ¬ (typeNames tls).Nodup →
      type_check tls = .error .TypeAlreadyDefined := by
    intro hnd
    have h := collect_types_dup tls [] (Or.inl hnd)
    simp [type_check, type_check_full, h]
  have part2 : (typeNames tls).Nodup →
      ¬ (ctorNames tls ++ defNames tls).Nodup →
      type_check tls = .error .SymbolAlreadyDefined := by
    intro hnd hdup
    obtain ⟨ts, hts⟩ := collect_types_ok tls [] hnd (by simp)
    by_cases hcn : (ctorNames tls).Nodup
    · obtain ⟨c1, hc1, hchar⟩ := collect_constructors_ok tls [] hcn
        (fun n _ => rfl)
      rw [List.nodup_append] at hdup
      push_neg at hdup
      by_cases hndb : (defNames tls).Nodup
      · have hdisjneg := hdup hcn hndb
        have hex : ∃ x, x ∈ ctorNames tls ∧ x ∈ defNames tls := by
          by_contra hno
          push_neg at hno
          exact hdisjneg fun x hxa hxb => hno x hxa hxb
        obtain ⟨x, hxa, hxb⟩ := hex
        have hd := collect_defs_dup tls c1
          (Or.inr ⟨x, hxb, (hchar x).mpr (Or.inr hxa)⟩)
        simp [type_check, type_check_full, hts, hc1, hd]
      · have hd := collect_defs_dup tls c1 (Or.inl hndb)
        simp [type_check, type_check_full, hts, hc1, hd]
    · have hc := collect_constructors_dup tls [] (Or.inl hcn)
      simp [type_check, type_check_full, hts, hc]
  refine ⟨part1, part2, ?_⟩
  intro h
  by_cases hnd : (typeNames tls).Nodup
  · rcases h with h | h
    · exact absurd hnd h
    · exact Or.inr (part2 hnd h)
  · exact Or.inl (part1 hnd)

/-- C7 amended witness: two definitions named `f` make the checker fail
with `SymbolAlreadyDefined`. -/
theorem duplicate_rejection_witness :
    type_check progDupDef = .error .SymbolAlreadyDefined :=
  (duplicate_rejection progDupDef).2.1 (by decide) (by decide)

/-- Helper: membership form of `noFunList`. -/
theorem noFunList_iff (l : List Ty) :
    noFunList l = true ↔ ∀ x ∈ l, noFun x = true := by
  induction l with
  | nil => simp [noFunList]
  | cons t ts ih => simp [noFunList, Bool.and_eq_true, ih]

/-- Helper: the element named by `getLast?` belongs to the list. -/
theorem mem_of_getLast?_eq_some {l : List Ty} {a : Ty}
    (h : l.getLast? = some a) : a ∈ l := by
  obtain ⟨hne, heq⟩ := List.mem_getLast?_eq_getLast (Option.mem_def.mpr h)
  exact heq ▸ List.getLast_mem hne

/- Helper: lowering a type expression never creates a `Function`
constructor anywhere inside the result. -/
mutual

theorem type_expr_noFun : ∀ te : TypeExpr, noFun (type_expr te) = true
  | .Word w => rfl
  | .Quotation i o => by
      simp only [type_expr, noFun, Bool.and_eq_true]
      exact ⟨type_expr_list_noFun i, type_expr_list_noFun o⟩

theorem type_expr_list_noFun :
    ∀ ts : List TypeExpr, noFunList (type_expr_list ts) = true
  | [] => rfl
  | t :: ts => by
      simp only [type_expr_list, noFunList, Bool.and_eq_true]
      exact ⟨type_expr_noFun t, type_expr_list_noFun ts⟩

end

/-- Helper: a successful table lookup returns a stored value. -/
theorem ctxGet_mem (c : Ctx) (k : String) (v : Ty)
    (h : ctxGet c k = some v) : (k, v) ∈ c := by
  induction c with
  | nil => cases h
  | cons p rest ih =>
      obtain ⟨k', v'⟩ := p
      simp only [ctxGet] at h
      by_cases hk : k' = k
      · rw [if_pos hk] at h
        subst hk
        cases h
        exact List.mem_cons_self _ _
      · rw [if_neg hk] at h
        exact List.mem_cons_of_mem _ (ih h)

/-- Helper: in a well-shaped table every lookup yields a good signature. -/
theorem ctxGood_lookup (c : Ctx) (k : String) (v : Ty)
    (hg : ctxGood c = true) (h : ctxGet c k = some v) :
    goodSig v = true := by
  rw [ctxGood, List.all_eq_true] at hg
  exact hg (k, v) (ctxGet_mem c k v h)

/-- Helper: in a well-shaped local scope every binding is Function-free. -/
theorem localsGood_lookup (locals : Locals) (n : String) (ty : Ty)
    (hl : localsGood locals = true) (h : (n, ty) ∈ locals) :
    noFun ty = true := by
  rw [localsGood, List.all_eq_true] at hl
  exact hl (n, ty) h

/-- Helper: `localsGood` distributes over append. -/
theorem localsGood_append (l1 l2 : Locals) :
    localsGood (l1 ++ l2) = (localsGood l1 && localsGood l2) := by
  simp [localsGood, List.all_append]

/-- Helper: `ctxGood` on a front insertion. -/
theorem ctxGood_cons (k : String) (v : Ty) (c : Ctx) :
    ctxGood ((k, v) :: c) = (goodSig v && ctxGood c) := by
  simp [ctxGood]

/-- Helper: a resolved word is either a Function-free value (from the
locals) or a good `Function` signature (from the global table). -/
theorem resolve_word_good (locals : Locals) (ctx : Ctx) (w : String)
    (ty : Ty) (hc : ctxGood ctx = true) (hl : localsGood locals = true)
    (h : resolve_word locals ctx w = .ok ty) :
    noFun ty = true ∨ goodSig ty = true := by
  simp only [resolve_word] at h
  cases hf : locals.reverse.find? (fun p => p.1 = w) with
  | some p =>
      obtain ⟨n, t⟩ := p
      rw [hf] at h
      simp only [Outcome.ok.injEq] at h
      subst h
      exact Or.inl (localsGood_lookup locals n t hl
        (List.mem_reverse.mp (List.mem_of_find?_eq_some hf)))
  | none =>
      rw [hf] at h
      cases hg : ctxGet ctx w with
      | some t =>
          rw [hg] at h
          simp only [Outcome.ok.injEq] at h
          subst h
          exact Or.inr (ctxGood_lookup ctx w t hc hg)
      | none => rw [hg] at h; cases h

/-- Helper: the constructor loop keeps the table well shaped. -/
theorem collect_ctor_list_good (tn : String) (cs : List Constructor) :
    ∀ (c0 c' : Ctx), ctxGood c0 = true →
      collect_ctor_list tn c0 cs = .ok c' → ctxGood c' = true := by
  induction cs with
  | nil =>
      intro c0 c' hg h
      simp only [collect_ctor_list, Outcome.ok.injEq] at h
      exact h ▸ hg
  | cons c rest ih =>
      intro c0 c' hg h
      obtain ⟨name, argts⟩ := c
      simp only [collect_ctor_list] at h
      by_cases hp : (ctxGet c0 name).isSome = true
      · rw [if_pos hp] at h; cases h
      · rw [if_neg hp] at h
        apply ih _ c' _ h
        rw [ctxGood_cons, hg, Bool.and_true]
        simp only [goodSig, Bool.and_eq_true]
        exact ⟨type_expr_list_noFun argts, rfl⟩

/-- Helper: phase 2 keeps the table well shaped. -/
theorem collect_constructors_good (tls : List TopLevel) :
    ∀ (c0 c' : Ctx), ctxGood c0 = true →
      collect_constructors c0 tls = .ok c' → ctxGood c' = true := by
  induction tls with
  | nil =>
      intro c0 c' hg h
      simp only [collect_constructors, Outcome.ok.injEq] at h
      exact h ▸ hg
  | cons tl rest ih =>
      intro c0 c' hg h
      cases tl with
      | Def n i o bs =>
          exact ih c0 c' hg (by simpa [collect_constructors] using h)
      | Data tn cs =>
          simp only [collect_constructors] at h
          cases hcl : collect_ctor_list tn c0 cs with
          | ok c1 =>
              rw [hcl] at h
              exact ih c1 c' (collect_ctor_list_good tn cs c0 c1 hg hcl) h
          | error e => rw [hcl] at h; cases h
          | panicked => rw [hcl] at h; cases h

/-- Helper: phase 3 keeps the table well shaped. -/
theorem collect_defs_good (tls : List TopLevel) :
    ∀ (c0 c' : Ctx), ctxGood c0 = true →
      collect_defs c0 tls = .ok c' → ctxGood c' = true := by
  induction tls with
  | nil =>
      intro c0 c' hg h
      simp only [collect_defs, Outcome.ok.injEq] at h
      exact h ▸ hg
  | cons tl rest ih =>
      intro c0 c' hg h
      cases tl with
      | Data tn cs => exact ih c0 c' hg (by simpa [collect_defs] using h)
      | Def n i o bs =>
          simp only [collect_defs] at h
          by_cases hp : (ctxGet c0 n).isSome = true
          · rw [if_pos hp] at h; cases h
          · rw [if_neg hp] at h
            apply ih _ c' _ h
            rw [ctxGood_cons, hg, Bool.and_true]
            simp only [goodSig, Bool.and_eq_true]
            exact ⟨type_expr_list_noFun i, type_expr_list_noFun o⟩

/- Helper: pattern binding keeps the local scope Function-free. -/
mutual

theorem define_pattern_locals_good (ctx : Ctx) :
    ∀ (locals : Locals) (t : Ty) (p : Pattern) (l' : Locals),
      ctxGood ctx = true → localsGood locals = true → noFun t = true →
      define_pattern_locals ctx locals t p = some l' →
      localsGood l' = true
  | locals, t, .All name, l', _hc, hl, ht, h => by
      simp only [define_pattern_locals, Option.some.injEq] at h
      subst h
      rw [localsGood_append, hl, Bool.true_and]
      simp [localsGood, ht]
  | locals, t, .Constructor name args, l', hc, hl, _ht, h => by
      simp only [define_pattern_locals] at h
      cases hg : ctxGet ctx name with
      | none => rw [hg] at h; cases h
      | some ty =>
          cases ty with
          | Basic s => rw [hg] at h; cases h
          | Quotation i o => rw [hg] at h; cases h
          | Function i o =>
              rw [hg] at h
              have hgood := ctxGood_lookup ctx name _ hc hg
              simp only [goodSig, Bool.and_eq_true] at hgood
              exact define_pattern_locals_list_good ctx locals i args l'
                hc hl hgood.1 h

theorem define_pattern_locals_list_good (ctx : Ctx) :
    ∀ (locals : Locals) (ts : List Ty) (ps : List Pattern) (l' : Locals),
      ctxGood ctx = true → localsGood locals = true →
      noFunList ts = true →
      define_pattern_locals_list ctx locals ts ps = some l' →
      localsGood l' = true
  | locals, [], [], l', _hc, hl, _hts, h => by
      simp only [define_pattern_locals_list, Option.some.injEq] at h
      exact h ▸ hl
  | locals, _ :: _, [], l', _hc, hl, _hts, h => by
      simp only [define_pattern_locals_list, Option.some.injEq] at h
      exact h ▸ hl
  | locals, [], _ :: _, l', _hc, hl, _hts, h => by
      simp only [define_pattern_locals_list, Option.some.injEq] at h
      exact h ▸ hl
  | locals, t :: ts, p :: ps, l', hc, hl, hts, h => by
      simp only [define_pattern_locals_list] at h
      simp only [noFunList, Bool.and_eq_true] at hts
      cases hd : define_pattern_locals ctx locals t p with
      | none => rw [hd] at h; cases h
      | some lmid =>
          rw [hd] at h
          exact define_pattern_locals_list_good ctx lmid ts ps l' hc
            (define_pattern_locals_good ctx locals t p lmid hc hl hts.1 hd)
            hts.2 h

end

/- Helper: the expression checker preserves Function-freeness of the
simulated stack. -/
mutual

theorem type_check_expr_noFun (ctx : Ctx) (locals : Locals) :
    ∀ (e : Expr) (stack stack' : List Ty),
      ctxGood ctx = true → localsGood locals = true →
      noFunList stack = true →
      type_check_expr ctx locals e stack = .ok stack' →
      noFunList stack' = true
  | .Word w, stack, stack', hc, hl, hs, h => by
      simp only [type_check_expr] at h
      cases hr : resolve_word locals ctx w with
      | error e => rw [hr] at h; cases h
      | panicked => rw [hr] at h; cases h
      | ok ty =>
          rw [hr] at h
          have hgood := resolve_word_good locals ctx w ty hc hl hr
          cases ty with
          | Basic s =>
              simp only [Outcome.ok.injEq] at h
              subst h
              rw [noFunList_iff]
              intro x hx
              rcases List.mem_append.mp hx with hx | hx
              · exact (noFunList_iff stack).mp hs x hx
              · rw [List.mem_singleton.mp hx]; rfl
          | Quotation i o =>
              simp only [Outcome.ok.injEq] at h
              subst h
              have hnf : noFun (.Quotation i o) = true := by
                rcases hgood with hnf | hg
                · exact hnf
                · simp [goodSig] at hg
              rw [noFunList_iff]
              intro x hx
              rcases List.mem_append.mp hx with hx | hx
              · exact (noFunList_iff stack).mp hs x hx
              · rw [List.mem_singleton.mp hx]; exact hnf
          | Function i o =>
              have ho : noFunList o = true := by
                rcases hgood with hnf | hg
                · simp [noFun] at hnf
                · simp only [goodSig, Bool.and_eq_true] at hg
                  exact hg.2
              simp only at h
              by_cases hlen : i.length > stack.length
              · rw [if_pos hlen] at h; cases h
              · rw [if_neg hlen] at h
                by_cases hne : stack.drop (stack.length - i.length) ≠ i
                · rw [if_pos hne] at h; cases h
                · rw [if_neg hne] at h
                  simp only [Outcome.ok.injEq] at h
                  subst h
                  rw [noFunList_iff]
                  intro x hx
                  rcases List.mem_append.mp hx with hx | hx
                  · exact (noFunList_iff stack).mp hs x
                      (List.take_subset _ _ hx)
                  · exact (noFunList_iff o).mp ho x hx
  | .Quotation tins body, stack, stack', hc, hl, hs, h => by
      simp only [type_check_expr] at h
      cases hb : type_check_body ctx locals body (type_expr_list tins) with
      | error e => rw [hb] at h; cases h
      | panicked => rw [hb] at h; cases h
      | ok outs =>
          rw [hb] at h
          simp only [Outcome.ok.injEq] at h
          subst h
          have houts := type_check_body_noFun ctx locals body
            (type_expr_list tins) outs hc hl (type_expr_list_noFun tins) hb
          rw [noFunList_iff]
          intro x hx
          rcases List.mem_append.mp hx with hx | hx
          · exact (noFunList_iff stack).mp hs x hx
          · rw [List.mem_singleton.mp hx]
            simp only [noFun, Bool.and_eq_true]
            exact ⟨type_expr_list_noFun tins, houts⟩
  | .Unquote, stack, stack', _hc, _hl, hs, h => by
      simp only [type_check_expr] at h
      cases hg : stack.getLast? with
      | none => rw [hg] at h; cases h
      | some ty =>
          cases ty with
          | Basic s => rw [hg] at h; cases h
          | Function i o => rw [hg] at h; cases h
          | Quotation i o =>
              rw [hg] at h
              simp only at h
              have hq : noFun (.Quotation i o) = true :=
                (noFunList_iff stack).mp hs _ (mem_of_getLast?_eq_some hg)
              simp only [noFun, Bool.and_eq_true] at hq
              by_cases hlen : i.length > stack.dropLast.length
              · rw [if_pos hlen] at h; cases h
              · rw [if_neg hlen] at h
                by_cases hne : stack.dropLast.drop
                    (stack.dropLast.length - i.length) ≠ i
                · rw [if_pos hne] at h; cases h
                · rw [if_neg hne] at h
                  simp only [Outcome.ok.injEq] at h
                  subst h
                  rw [noFunList_iff]
                  intro x hx
                  rcases List.mem_append.mp hx with hx | hx
                  · exact (noFunList_iff stack).mp hs x
                      (List.dropLast_subset _ (List.take_subset _ _ hx))
                  · exact (noFunList_iff o).mp hq.2 x hx

theorem type_check_body_noFun (ctx : Ctx) (locals : Locals) :
    ∀ (es : List Expr) (stack stack' : List Ty),
      ctxGood ctx = true → localsGood locals = true →
      noFunList stack = true →
      type_check_body ctx locals es stack = .ok stack' →
      noFunList stack' = true
  | [], stack, stack', _hc, _hl, hs, h => by
      simp only [type_check_body, Outcome.ok.injEq] at h
      exact h ▸ hs
  | e :: es, stack, stack', hc, hl, hs, h => by
      simp only [type_check_body] at h
      cases he : type_check_expr ctx locals e stack with
      | error err => rw [he] at h; cases h
      | panicked => rw [he] at h; cases h
      | ok smid =>
          rw [he] at h
          exact type_check_body_noFun ctx locals es smid stack' hc hl
            (type_check_expr_noFun ctx locals e stack smid hc hl hs he) h

end

/-- Helper: a word that resolves to a local binding is pushed verbatim
(never treated as a call), because local bindings are Function-free. -/
theorem local_word_pushes (ctx : Ctx) (locals : Locals) (w n : String)
    (ty : Ty) (stack : List Ty)
    (hl : localsGood locals = true)
    (hf : locals.reverse.find? (fun p => p.1 = w) = some (n, ty)) :
    type_check_expr ctx locals (.Word w) stack = .ok (stack ++ [ty]) := by
  have hnf : noFun ty = true := localsGood_lookup locals n ty hl
    (List.mem_reverse.mp (List.mem_of_find?_eq_some hf))
  have hres : resolve_word locals ctx w = .ok ty := by
    simp only [resolve_word, hf]
  simp only [type_check_expr, hres]
  cases ty with
  | Basic s => rfl
  | Quotation i o => rfl
  | Function i o => simp [noFun] at hnf

/-- C10: lowering a `TypeExpr` never produces a `Function` type; the
global tables built by the successful collection phases map every name to
a well-shaped `Function` signature over `Function`-free types; pattern
binding and expression checking therefore keep every local binding and
every simulated-stack slot `Function`-free (i.e. `Basic` or `Quotation`);
and consequently a word that resolves to a local binding is always pushed
as a value, never treated as a call. -/
theorem lowering_no_function_invariant :
    (∀ (te : TypeExpr) (i o : List Ty), type_expr te ≠ .Function i o) ∧
    (∀ (tls : List TopLevel) (c0 c' : Ctx), ctxGood c0 = true →
      collect_constructors c0 tls = .ok c' → ctxGood c' = true) ∧
    (∀ (tls : List TopLevel) (c0 c' : Ctx), ctxGood c0 = true →
      collect_defs c0 tls = .ok c' → ctxGood c' = true) ∧
    (∀ (ctx : Ctx) (locals : Locals) (t : Ty) (p : Pattern) (l' : Locals),
      ctxGood ctx = true → localsGood locals = true → noFun t = true →
      define_pattern_locals ctx locals t p = some l' →
      localsGood l' = true) ∧
    (∀ (ctx : Ctx) (locals : Locals) (e : Expr) (stack stack' : List Ty),
      ctxGood ctx = true → localsGood locals = true →
      noFunList stack = true →
      type_check_expr ctx locals e stack = .ok stack' →
      noFunList stack' = true) ∧
    (∀ (ctx : Ctx) (locals : Locals) (w n : String) (ty : Ty)
        (stack : List Ty), localsGood locals = true →
      locals.reverse.find? (fun p => p.1 = w) = some (n, ty) →
      type_check_expr ctx locals (.Word w) stack = .ok (stack ++ [ty])) := by
  refine ⟨?_, ?_, ?_, ?_, ?_, ?_⟩
  · intro te i o
    cases te <;> simp [type_expr]
  · intro tls c0 c' hg h
    exact collect_constructors_good tls c0 c' hg h
  · intro tls c0 c' hg h
    exact collect_defs_good tls c0 c' hg h
  · intro ctx locals t p l' hc hl ht h
    exact define_pattern_locals_good ctx locals t p l' hc hl ht h
  · intro ctx locals e stack stack' hc hl hs h
    exact type_check_expr_noFun ctx locals e stack stack' hc hl hs h
  · intro ctx locals w n ty stack hl hf
    exact local_word_pushes ctx locals w n ty stack hl hf

/-- C10 witness: concrete instances of the invariant parts, with every
hypothesis discharged by evaluation. -/
theorem lowering_no_function_invariant_witness :
    type_expr (TypeExpr.Word "A") ≠ Ty.Function [] [] ∧
    localsGood [("x", Ty.Basic "A")] = true ∧
    type_check_expr [] [("x", Ty.Basic "A")] (Expr.Word "x") [] =
      .ok ([] ++ [Ty.Basic "A"]) := by
  refine ⟨lowering_no_function_invariant.1 (TypeExpr.Word "A") [] [],
    by decide, ?_⟩
  exact lowering_no_function_invariant.2.2.2.2.2 [] [("x", Ty.Basic "A")]
    "x" "x" (Ty.Basic "A") [] (by decide) (by decide)

end SL
